import Mathlib

/- Verification development for the tev HDR image viewer.

   Shallow embedding of the code in src/include/tev/Common.h and
   src/include/tev/ImageCanvas.h, together with models (from the
   specification) of components whose implementation files are not part of
   the provided sources (Lazy.h, ImageCanvas.cpp).

   Numeric modelling: machine float values are modelled as exact rationals
   wherever the code performs only field/order arithmetic (metrics, clamp,
   configuration fields), and as real numbers wherever transcendental
   functions occur (pow in toSRGB, 2^exposure). -/

namespace Tev

/- Enum ETonemap from Common.h lines 150-159. The sentinel NumTonemaps is
   documented in the source as never being used as a value (it only
   facilitates looping over the enum), so it is not a constructor here. -/
inductive ETonemap where
  | SRGB
  | Gamma
  | FalseColor
  | PositiveNegative
deriving DecidableEq

/- Enum EMetric from Common.h lines 163-173; the NumMetrics sentinel is
   omitted for the same reason as NumTonemaps. -/
inductive EMetric where
  | Error
  | AbsoluteError
  | SquaredError
  | RelativeAbsoluteError
  | RelativeSquaredError
deriving DecidableEq

/- Embedding of clamp from Common.h lines 90-94. The TEV_ASSERT macro
   (Common.h lines 39-41) throws a runtime_error when its condition fails;
   this is modelled with Except. The thrown message interpolates the two
   bounds; the exact text is irrelevant to the claims, so a fixed message
   stands in for it. -/
def clamp {T : Type} [LinearOrder T] (value mn mx : T) : Except String T :=
  if mx ≥ mn then Except.ok (max (min value mx) mn)
  else Except.error "Minimum may not be larger than maximum."

/- Embedding of toSRGB from Common.h lines 124-131, with the C++ default
   argument gamma = 2.4 passed explicitly by callers. The float literals
   12.92f, 0.055f and 0.0031308f are modelled by the decimal values they
   denote. -/
noncomputable def toSRGB (linear : ℝ) (gamma : ℝ) : ℝ :=
  if linear ≤ 0.0031308 then
    12.92 * linear
  else
    (1 + 0.055) * linear ^ (1 / gamma) - 0.055

/-- Modelled from the spec: the small positive constant preventing division
by zero in the relative metrics. Its exact value is not pinned by the
sources available here (the spec suggests about 1e-6). -/
def metricEpsilon : ℚ := 1 / 1000000

/-- Modelled from the spec: the body of static ImageCanvas::applyMetric
(declared at ImageCanvas.h line 98; its implementation file is not among the
provided sources), following the pointwise metric definitions of
specification section 4.4. -/
def applyMetric (value reference : ℚ) : EMetric → ℚ
  | .Error => value - reference
  | .AbsoluteError => |value - reference|
  | .SquaredError => (value - reference) ^ 2
  | .RelativeAbsoluteError => |value - reference| / (|reference| + metricEpsilon)
  | .RelativeSquaredError => (value - reference) ^ 2 / (reference ^ 2 + metricEpsilon)

/-- Modelled from the spec: the body of static ImageCanvas::applyTonemap
(declared at ImageCanvas.h line 85; its implementation file is not among the
provided sources), per channel. SRGB mode applies the toSRGB transfer curve
of Common.h with its default gamma 2.4; Gamma mode raises the channel to the
power 1/gamma. The FalseColor and PositiveNegative colour ramps are not
specified pointwise by the spec and are left unmodelled (none). -/
noncomputable def applyTonemapChannel (value gamma : ℝ) : ETonemap → Option ℝ
  | .SRGB => some (toSRGB value 2.4)
  | .Gamma => some (value ^ (1 / gamma))
  | _ => none

/- State of an ImageCanvas, from the private fields of ImageCanvas.h lines
   153-172, with the field initializers of the source as defaults. The
   GUI-only members (mTransform, mShader) are out of claim scope and
   omitted. Image identity is an abstract type parameter I (shared_ptr,
   possibly null, hence Option); the Lazy statistics entries stored in the
   std::map mMeanValues are abstract values of a type parameter S, the map
   itself an association list keyed by string. -/
structure ImageCanvas (I S : Type) where
  mPixelRatio : ℚ := 1
  mExposure : ℚ := 0
  mOffset : ℚ := 0
  mGamma : ℚ := 11 / 5
  mClipToLdr : Bool := false
  mImage : Option I := none
  mReference : Option I := none
  mRequestedChannelGroup : String := ""
  mTonemap : ETonemap := ETonemap.SRGB
  mMetric : EMetric := EMetric.Error
  mMeanValues : List (String × S) := []

/- A freshly constructed canvas: every field takes its in-class
   initializer. -/
def initCanvas (I S : Type) : ImageCanvas I S := {}

/- Embedding of ImageCanvas::setExposure, ImageCanvas.h lines 42-44. -/
def setExposure {I S : Type} (c : ImageCanvas I S) (exposure : ℚ) : ImageCanvas I S :=
  { c with mExposure := exposure }

/- Embedding of ImageCanvas::setOffset, ImageCanvas.h lines 46-48. -/
def setOffset {I S : Type} (c : ImageCanvas I S) (offset : ℚ) : ImageCanvas I S :=
  { c with mOffset := offset }

/- Embedding of ImageCanvas::setGamma, ImageCanvas.h lines 50-52. Note the
   body is a bare assignment: no validation of the argument occurs. -/
def setGamma {I S : Type} (c : ImageCanvas I S) (gamma : ℚ) : ImageCanvas I S :=
  { c with mGamma := gamma }

/-- Modelled from the spec: the body of ImageCanvas::applyExposureAndOffset
(declared at ImageCanvas.h line 54; its implementation file is not among the
provided sources): adjusted = value * 2^exposure + offset, reading the
current exposure and offset fields of the canvas. -/
noncomputable def applyExposureAndOffset {I S : Type} (c : ImageCanvas I S) (value : ℝ) : ℝ :=
  value * (2 : ℝ) ^ (c.mExposure : ℝ) + (c.mOffset : ℝ)

/-- Modelled from the spec: exposure and offset are applied before
tonemapping (specification section 4.5), so the per-channel display pipeline
feeds the adjusted value, not the raw one, to the tonemap. -/
noncomputable def displayChannel {I S : Type} (c : ImageCanvas I S) (value : ℝ) : Option ℝ :=
  applyTonemapChannel (applyExposureAndOffset c value) (c.mGamma : ℝ) c.mTonemap

/- Embedding of the inline vector-returning overload of
   ImageCanvas::getValuesAtNanoPos, ImageCanvas.h lines 71-75: it default
   constructs an empty result vector, passes it to the reference-parameter
   overload, and returns it. The reference-parameter overload (line 70) is
   implemented outside the provided headers, so it enters the model as an
   arbitrary function from nano position, initial result-vector contents and
   channel list to final result-vector contents. -/
def getValuesAtNanoPosVec (impl : ℤ × ℤ → List ℚ → List String → List ℚ)
    (nanoPos : ℤ × ℤ) (channels : List String) : List ℚ :=
  impl nanoPos [] channels

/-- Modelled from the spec: the state of a Lazy memoized value
(specification sections 3 and 4.2; Lazy.h is not among the provided
sources). Empty holds no value; Computing records the callers awaiting the
single in-flight computation; Ready caches the computed value. -/
inductive LazyState (T : Type) where
  | empty : LazyState T
  | computing : List Nat → LazyState T
  | ready : T → LazyState T
deriving DecidableEq

/-- Modelled from the spec: an observation record around one Lazy value.
Along with the state it counts how often the underlying compute function has
been invoked and logs every delivery of a result value to a caller. -/
structure LazySys (T : Type) where
  state : LazyState T
  started : Nat
  received : List (Nat × T)
deriving DecidableEq

/-- Modelled from the spec: the atomic events of the Lazy state machine.
compute i is a call of compute() by caller i; finish v is the completion of
the in-flight computation with value v; invalidate is a call of
invalidate(). -/
inductive LazyEvent (T : Type) where
  | compute : Nat → LazyEvent T
  | finish : T → LazyEvent T
  | invalidate : LazyEvent T
deriving DecidableEq

/-- Modelled from the spec: one atomic transition of the Lazy state machine
(the spec mandates a mutex around the state transition, which justifies
atomic interleaving). A compute() on Empty starts the computation (counted
in started) and registers the caller as a waiter; on Computing it joins the
waiters of the in-flight computation without starting a new one; on Ready it
delivers the cached value immediately. A finish hands the value to every
waiter and caches it; a finish arriving in any other state is a stale
completion whose value is discarded. An invalidate forces the state back to
Empty. -/
def lazyStep {T : Type} (s : LazySys T) : LazyEvent T → LazySys T
  | .compute i =>
    match s.state with
    | .empty => ⟨.computing [i], s.started + 1, s.received⟩
    | .computing ws => ⟨.computing (i :: ws), s.started, s.received⟩
    | .ready v => ⟨.ready v, s.started, (i, v) :: s.received⟩
  | .finish v =>
    match s.state with
    | .computing ws => ⟨.ready v, s.started, ws.map (fun i => (i, v)) ++ s.received⟩
    | st => ⟨st, s.started, s.received⟩
  | .invalidate => ⟨.empty, s.started, s.received⟩

/-- Modelled from the spec: the initial Lazy value is Empty, with no
computation started and nothing delivered. -/
def initLazy (T : Type) : LazySys T := ⟨.empty, 0, []⟩

/-- Modelled from the spec: running a whole trace of events from the initial
state. -/
def lazyRun {T : Type} (tr : List (LazyEvent T)) : LazySys T :=
  tr.foldl lazyStep (initLazy T)

/-- A trace with no invalidation between the calls. -/
def noInvalidate {T : Type} (tr : List (LazyEvent T)) : Prop :=
  ∀ e ∈ tr, e ≠ LazyEvent.invalidate

instance {T : Type} [DecidableEq T] (tr : List (LazyEvent T)) :
    Decidable (noInvalidate tr) := by
  unfold noInvalidate; infer_instance

/-- The callers that issue a compute() call in a trace. -/
def computeCallers {T : Type} (tr : List (LazyEvent T)) : List Nat :=
  tr.filterMap fun e =>
    match e with
    | .compute i => some i
    | _ => none

/-- Invariant of the Lazy state machine on invalidation-free traces,
relating the state to the callers seen so far: while Empty nothing has
started and nobody called; while Computing exactly one computation has
started, nothing has been delivered yet, and the waiter list holds exactly
the callers; once Ready exactly one computation has started, every delivery
carries the cached value, and the delivered callers are exactly the
callers. -/
def lazyInv {T : Type} (callers : List Nat) (s : LazySys T) : Prop :=
  (s.state = LazyState.empty → s.started = 0 ∧ s.received = [] ∧ callers = [])
  ∧ (∀ ws, s.state = LazyState.computing ws →
      s.started = 1 ∧ s.received = [] ∧ ∀ i, i ∈ callers ↔ i ∈ ws)
  ∧ (∀ v, s.state = LazyState.ready v →
      s.started = 1 ∧ (∀ p ∈ s.received, p.2 = v) ∧
      ∀ i, i ∈ callers ↔ (i, v) ∈ s.received)

lemma lazyInv_step {T : Type} {cs : List Nat} {s : LazySys T} (e : LazyEvent T)
    (hinv : lazyInv cs s) (hne : e ≠ LazyEvent.invalidate) :
    lazyInv (cs ++ computeCallers [e]) (lazyStep s e) := by
  obtain ⟨st, started, received⟩ := s
  cases e with
  | compute i =>
    cases st with
    | empty =>
      obtain ⟨h1, h2, h3⟩ := hinv.1 rfl
      have h1b : started = 0 := h1
      have h2b : received = [] := h2
      subst h1b h2b h3
      refine ⟨?_, ?_, ?_⟩
      · intro hc; cases hc
      · intro ws hc
        injection hc with hws
        subst hws
        exact ⟨rfl, rfl, fun j => Iff.rfl⟩
      · intro v hc; cases hc
    | computing ws =>
      obtain ⟨h1, h2, h3⟩ := hinv.2.1 ws rfl
      have h2b : received = [] := h2
      subst h2b
      refine ⟨?_, ?_, ?_⟩
      · intro hc; cases hc
      · intro ws2 hc
        injection hc with hws
        subst hws
        refine ⟨h1, rfl, ?_⟩
        intro j
        show j ∈ cs ++ [i] ↔ j ∈ i :: ws
        have h3j : j ∈ cs ↔ j ∈ ws := h3 j
        constructor
        · intro hj
          rcases List.mem_append.mp hj with h | h
          · exact List.mem_cons_of_mem i (h3j.mp h)
          · rcases List.mem_singleton.mp h with rfl
            exact List.mem_cons_self j ws
        · intro hj
          rcases List.mem_cons.mp hj with h | h
          · subst h
            exact List.mem_append.mpr (Or.inr (List.mem_singleton.mpr rfl))
          · exact List.mem_append.mpr (Or.inl (h3j.mpr h))
      · intro v hc; cases hc
    | ready v =>
      obtain ⟨h1, h2, h3⟩ := hinv.2.2 v rfl
      refine ⟨?_, ?_, ?_⟩
      · intro hc; cases hc
      · intro ws2 hc; cases hc
      · intro v2 hc
        injection hc with hv
        subst hv
        refine ⟨h1, ?_, ?_⟩
        · intro p hp
          have hpb : p ∈ (i, v) :: received := hp
          rcases List.mem_cons.mp hpb with h | h
          · subst h; rfl
          · exact h2 p h
        · intro j
          show j ∈ cs ++ [i] ↔ (j, v) ∈ (i, v) :: received
          have h3j : j ∈ cs ↔ (j, v) ∈ received := h3 j
          constructor
          · intro hj
            rcases List.mem_append.mp hj with h | h
            · exact List.mem_cons_of_mem _ (h3j.mp h)
            · rcases List.mem_singleton.mp h with rfl
              exact List.mem_cons_self _ _
          · intro hj
            rcases List.mem_cons.mp hj with h | h
            · have hji : j = i := congrArg Prod.fst h
              subst hji
              exact List.mem_append.mpr (Or.inr (List.mem_singleton.mpr rfl))
            · exact List.mem_append.mpr (Or.inl (h3j.mpr h))
  | finish v =>
    cases st with
    | empty =>
      obtain ⟨h1, h2, h3⟩ := hinv.1 rfl
      subst h3
      refine ⟨?_, ?_, ?_⟩
      · intro _
        exact ⟨h1, h2, rfl⟩
      · intro ws hc; cases hc
      · intro w hc; cases hc
    | computing ws =>
      obtain ⟨h1, h2, h3⟩ := hinv.2.1 ws rfl
      have h2b : received = [] := h2
      subst h2b
      refine ⟨?_, ?_, ?_⟩
      · intro hc; cases hc
      · intro ws2 hc; cases hc
      · intro w hc
        injection hc with hv
        subst hv
        refine ⟨h1, ?_, ?_⟩
        · intro p hp
          have hpb : p ∈ List.map (fun k => (k, v)) ws ++ [] := hp
          rw [List.append_nil] at hpb
          obtain ⟨k, hk, hkw⟩ := List.mem_map.mp hpb
          rw [← hkw]
        · intro j
          show j ∈ cs ++ [] ↔ (j, v) ∈ List.map (fun k => (k, v)) ws ++ []
          rw [List.append_nil, List.append_nil]
          have h3j : j ∈ cs ↔ j ∈ ws := h3 j
          constructor
          · intro hj
            exact List.mem_map.mpr ⟨j, h3j.mp hj, rfl⟩
          · intro hj
            obtain ⟨k, hk, hkw⟩ := List.mem_map.mp hj
            have hkj : k = j := congrArg Prod.fst hkw
            subst hkj
            exact h3j.mpr hk
    | ready w =>
      obtain ⟨h1, h2, h3⟩ := hinv.2.2 w rfl
      refine ⟨?_, ?_, ?_⟩
      · intro hc; cases hc
      · intro ws2 hc; cases hc
      · intro w2 hc
        injection hc with hv
        subst hv
        refine ⟨h1, h2, ?_⟩
        intro j
        show j ∈ cs ++ [] ↔ (j, w) ∈ received
        rw [List.append_nil]
        exact h3 j
  | invalidate => exact absurd rfl hne

lemma lazyInv_run {T : Type} (tr : List (LazyEvent T)) :
    ∀ (cs : List Nat) (s : LazySys T), lazyInv cs s → noInvalidate tr →
      lazyInv (cs ++ computeCallers tr) (tr.foldl lazyStep s) := by
  induction tr with
  | nil =>
    intro cs s hinv _
    simpa [computeCallers] using hinv
  | cons e tr ih =>
    intro cs s hinv hni
    have hne : e ≠ LazyEvent.invalidate := hni e (List.mem_cons_self e tr)
    have hni2 : noInvalidate tr := fun x hx => hni x (List.mem_cons_of_mem e hx)
    have hstep := lazyInv_step e hinv hne
    have hrest := ih (cs ++ computeCallers [e]) (lazyStep s e) hstep hni2
    have harr : computeCallers (e :: tr) = computeCallers [e] ++ computeCallers tr := by
      cases e <;> simp [computeCallers, List.filterMap]
    rw [List.foldl_cons, harr, ← List.append_assoc]
    exact hrest

/-- C1: for every Lazy value, on any invalidation-free trace of concurrent
compute() calls and computation completions, the underlying compute function
is invoked at most once, exactly once as soon as at least one compute() call
occurred, all delivered results are identical, and once the value is Ready
every caller that issued a compute() call has received exactly the cached
value. -/
theorem lazy_single_flight {T : Type} (tr : List (LazyEvent T))
    (h : noInvalidate tr) :
    (lazyRun tr).started ≤ 1
    ∧ (computeCallers tr ≠ [] → (lazyRun tr).started = 1)
    ∧ (∀ p ∈ (lazyRun tr).received, ∀ q ∈ (lazyRun tr).received, p.2 = q.2)
    ∧ (∀ v : T, (lazyRun tr).state = LazyState.ready v →
        ∀ i ∈ computeCallers tr, (i, v) ∈ (lazyRun tr).received) := by
  have hinit : lazyInv ([] : List Nat) (initLazy T) := by
    refine ⟨?_, ?_, ?_⟩
    · intro _; exact ⟨rfl, rfl, rfl⟩
    · intro ws hc; cases hc
    · intro v hc; cases hc
  have hinv := lazyInv_run tr [] (initLazy T) hinit h
  simp only [List.nil_append] at hinv
  have hrun : lazyRun tr = tr.foldl lazyStep (initLazy T) := rfl
  rw [← hrun] at hinv
  rcases hst : (lazyRun tr).state with _ | ws | v
  · obtain ⟨h1, h2, h3⟩ := hinv.1 hst
    refine ⟨?_, ?_, ?_, ?_⟩
    · omega
    · intro hne; exact absurd h3 hne
    · intro p hp; rw [h2] at hp; cases hp
    · intro v hv; cases hv
  · obtain ⟨h1, h2, h3⟩ := hinv.2.1 ws hst
    refine ⟨?_, ?_, ?_, ?_⟩
    · omega
    · intro _; exact h1
    · intro p hp; rw [h2] at hp; cases hp
    · intro v hv; cases hv
  · obtain ⟨h1, h2, h3⟩ := hinv.2.2 v hst
    refine ⟨?_, ?_, ?_, ?_⟩
    · omega
    · intro _; exact h1
    · intro p hp q hq
      rw [h2 p hp, h2 q hq]
    · intro v2 hv2
      cases hv2
      intro i hi
      exact (h3 i).mp hi

/-- Closed witness for C1: a trace in which three callers race compute()
calls around one completion: the computation starts exactly once and every
caller receives the cached value 42. -/
theorem lazy_single_flight_witness :
    noInvalidate [LazyEvent.compute 0, LazyEvent.compute 1,
        LazyEvent.finish (42 : Nat), LazyEvent.compute 2]
    ∧ ((lazyRun [LazyEvent.compute 0, LazyEvent.compute 1,
        LazyEvent.finish (42 : Nat), LazyEvent.compute 2]).started ≤ 1
      ∧ (computeCallers [LazyEvent.compute 0, LazyEvent.compute 1,
          LazyEvent.finish (42 : Nat), LazyEvent.compute 2] ≠ [] →
          (lazyRun [LazyEvent.compute 0, LazyEvent.compute 1,
            LazyEvent.finish (42 : Nat), LazyEvent.compute 2]).started = 1)
      ∧ (∀ p ∈ (lazyRun [LazyEvent.compute 0, LazyEvent.compute 1,
            LazyEvent.finish (42 : Nat), LazyEvent.compute 2]).received,
          ∀ q ∈ (lazyRun [LazyEvent.compute 0, LazyEvent.compute 1,
            LazyEvent.finish (42 : Nat), LazyEvent.compute 2]).received,
          p.2 = q.2)
      ∧ (∀ v : Nat, (lazyRun [LazyEvent.compute 0, LazyEvent.compute 1,
            LazyEvent.finish (42 : Nat), LazyEvent.compute 2]).state =
            LazyState.ready v →
          ∀ i ∈ computeCallers [LazyEvent.compute 0, LazyEvent.compute 1,
            LazyEvent.finish (42 : Nat), LazyEvent.compute 2],
          (i, v) ∈ (lazyRun [LazyEvent.compute 0, LazyEvent.compute 1,
            LazyEvent.finish (42 : Nat), LazyEvent.compute 2]).received)) :=
  ⟨by decide,
   lazy_single_flight [LazyEvent.compute 0, LazyEvent.compute 1,
     LazyEvent.finish (42 : Nat), LazyEvent.compute 2] (by decide)⟩

/-- C2: setExposure, setOffset and setGamma leave the canvas statistics
cache mMeanValues unchanged (no entry is invalidated or removed), alter
exactly their own configuration field, and preserve every other field. -/
theorem setters_preserve_statistics_cache {I S : Type} (c : ImageCanvas I S)
    (e o g : ℚ) :
    ((setExposure c e).mMeanValues = c.mMeanValues
      ∧ (setExposure c e).mExposure = e
      ∧ (setExposure c e).mOffset = c.mOffset
      ∧ (setExposure c e).mGamma = c.mGamma
      ∧ (setExposure c e).mPixelRatio = c.mPixelRatio
      ∧ (setExposure c e).mClipToLdr = c.mClipToLdr
      ∧ (setExposure c e).mImage = c.mImage
      ∧ (setExposure c e).mReference = c.mReference
      ∧ (setExposure c e).mRequestedChannelGroup = c.mRequestedChannelGroup
      ∧ (setExposure c e).mTonemap = c.mTonemap
      ∧ (setExposure c e).mMetric = c.mMetric)
    ∧ ((setOffset c o).mMeanValues = c.mMeanValues
      ∧ (setOffset c o).mOffset = o
      ∧ (setOffset c o).mExposure = c.mExposure
      ∧ (setOffset c o).mGamma = c.mGamma
      ∧ (setOffset c o).mPixelRatio = c.mPixelRatio
      ∧ (setOffset c o).mClipToLdr = c.mClipToLdr
      ∧ (setOffset c o).mImage = c.mImage
      ∧ (setOffset c o).mReference = c.mReference
      ∧ (setOffset c o).mRequestedChannelGroup = c.mRequestedChannelGroup
      ∧ (setOffset c o).mTonemap = c.mTonemap
      ∧ (setOffset c o).mMetric = c.mMetric)
    ∧ ((setGamma c g).mMeanValues = c.mMeanValues
      ∧ (setGamma c g).mGamma = g
      ∧ (setGamma c g).mExposure = c.mExposure
      ∧ (setGamma c g).mOffset = c.mOffset
      ∧ (setGamma c g).mPixelRatio = c.mPixelRatio
      ∧ (setGamma c g).mClipToLdr = c.mClipToLdr
      ∧ (setGamma c g).mImage = c.mImage
      ∧ (setGamma c g).mReference = c.mReference
      ∧ (setGamma c g).mRequestedChannelGroup = c.mRequestedChannelGroup
      ∧ (setGamma c g).mTonemap = c.mTonemap
      ∧ (setGamma c g).mMetric = c.mMetric) :=
  ⟨⟨rfl, rfl, rfl, rfl, rfl, rfl, rfl, rfl, rfl, rfl, rfl⟩,
   ⟨rfl, rfl, rfl, rfl, rfl, rfl, rfl, rfl, rfl, rfl, rfl⟩,
   ⟨rfl, rfl, rfl, rfl, rfl, rfl, rfl, rfl, rfl, rfl, rfl⟩⟩

/-- C5: comparing a value against itself under the Error and SquaredError
metrics yields exactly zero. -/
theorem applyMetric_self_zero (v : ℚ) :
    applyMetric v v EMetric.Error = 0 ∧ applyMetric v v EMetric.SquaredError = 0 := by
  constructor
  · show v - v = 0
    exact sub_self v
  · show (v - v) ^ 2 = 0
    rw [sub_self]
    exact zero_pow (by norm_num)

/-- C6: the RelativeAbsoluteError metric is division safe: its divisor is
the strictly positive quantity abs reference + epsilon for every reference,
the metric follows the epsilon-guarded formula, and in particular value 5
against reference 0 yields the finite value 5000000. -/
theorem applyMetric_relative_division_safe (v r : ℚ) :
    0 < |r| + metricEpsilon
    ∧ applyMetric v r EMetric.RelativeAbsoluteError = |v - r| / (|r| + metricEpsilon)
    ∧ applyMetric 5 0 EMetric.RelativeAbsoluteError = 5000000 := by
  refine ⟨?_, rfl, ?_⟩
  · have h1 : (0:ℚ) < metricEpsilon := by norm_num [metricEpsilon]
    have h2 := abs_nonneg r
    linarith
  · show |(5:ℚ) - 0| / (|(0:ℚ)| + metricEpsilon) = 5000000
    norm_num [metricEpsilon]

/-- C7: applyExposureAndOffset computes value * 2^mExposure + mOffset from
the current canvas fields, and the per-channel display pipeline hands the
tonemap exactly this adjusted value rather than the raw one. -/
theorem exposure_offset_before_tonemap {I S : Type} (c : ImageCanvas I S) (v : ℝ) :
    applyExposureAndOffset c v = v * (2 : ℝ) ^ (c.mExposure : ℝ) + (c.mOffset : ℝ)
    ∧ displayChannel c v =
        applyTonemapChannel (v * (2 : ℝ) ^ (c.mExposure : ℝ) + (c.mOffset : ℝ))
          (c.mGamma : ℝ) c.mTonemap :=
  ⟨rfl, rfl⟩

/-- C8 counterexample: setGamma performs no validation, so setting gamma to
-1 on a freshly constructed canvas leaves a non-positive gamma value,
refuting the claim that the gamma configuration value is always strictly
positive after every sequence of setGamma calls. -/
theorem setGamma_admits_nonpositive :
    ¬ (0 < (setGamma (initCanvas Unit Unit) (-1)).mGamma) := by
  show ¬ ((0:ℚ) < -1)
  norm_num

lemma foldl_setGamma_pos {I S : Type} (gs : List ℚ) :
    ∀ c : ImageCanvas I S, (∀ g ∈ gs, 0 < g) → 0 < c.mGamma →
      0 < (gs.foldl setGamma c).mGamma := by
  induction gs with
  | nil => intro c _ hc; exact hc
  | cons g gs ih =>
    intro c hall _
    rw [List.foldl_cons]
    exact ih (setGamma c g) (fun x hx => hall x (List.mem_cons_of_mem g hx))
      (hall g (List.mem_cons_self g gs))

/-- C8 (amended): the gamma configuration value starts positive (the
in-class initializer is 2.2) and remains positive after every sequence of
setGamma calls whose arguments are all positive; setGamma itself stores its
argument without validation, so positivity is a caller obligation, not an
enforced invariant. -/
theorem gamma_positive_of_positive_sets (gs : List ℚ)
    (h : ∀ g ∈ gs, 0 < g) :
    0 < (gs.foldl setGamma (initCanvas Unit Unit)).mGamma :=
  foldl_setGamma_pos gs (initCanvas Unit Unit) h
    (by show (0:ℚ) < 11 / 5; norm_num)

/-- Closed witness for C8 (amended) at the positive argument sequence
1, 3. -/
theorem gamma_positive_of_positive_sets_witness :
    (∀ g ∈ [(1:ℚ), 3], 0 < g)
    ∧ 0 < ([(1:ℚ), 3].foldl setGamma (initCanvas Unit Unit)).mGamma :=
  ⟨by decide, gamma_positive_of_positive_sets [1, 3] (by decide)⟩

/-- C9: the two overloads of getValuesAtNanoPos are equivalent: for every
behaviour of the reference-parameter overload, every nano position and every
channel list, the vector-returning overload returns exactly what the
reference-parameter overload produces from a freshly default-constructed
(empty) result vector. -/
theorem getValuesAtNanoPos_overloads_agree
    (impl : ℤ × ℤ → List ℚ → List String → List ℚ)
    (nanoPos : ℤ × ℤ) (channels : List String) :
    getValuesAtNanoPosVec impl nanoPos channels = impl nanoPos [] channels :=
  rfl

/-- C10: clamp throws exactly when max is less than min; under the
precondition min ≤ max it never throws, returns max(min(value, max), min),
and that result always lies within the closed interval from min to max. -/
theorem clamp_spec {T : Type} [LinearOrder T] (value mn mx : T) :
    ((∃ msg, clamp value mn mx = Except.error msg) ↔ mx < mn)
    ∧ (mn ≤ mx →
        clamp value mn mx = Except.ok (max (min value mx) mn)
        ∧ ∀ r, clamp value mn mx = Except.ok r → mn ≤ r ∧ r ≤ mx) := by
  constructor
  · constructor
    · rintro ⟨msg, hmsg⟩
      by_contra hnot
      have hge : mx ≥ mn := not_lt.mp hnot
      simp only [clamp, if_pos hge] at hmsg
      cases hmsg
    · intro hlt
      refine ⟨"Minimum may not be larger than maximum.", ?_⟩
      simp only [clamp, if_neg (not_le.mpr hlt)]
  · intro hle
    have heq : clamp value mn mx = Except.ok (max (min value mx) mn) := by
      simp only [clamp, if_pos hle]
    refine ⟨heq, ?_⟩
    intro r hr
    rw [heq] at hr
    injection hr with hr2
    subst hr2
    constructor
    · exact le_max_right _ _
    · exact max_le (min_le_right _ _) hle

/-- Closed witness for C10: clamping 5 into the interval from 0 to 3 does
not throw and returns 3. -/
theorem clamp_spec_witness :
    (0:ℤ) ≤ 3 ∧ clamp (5:ℤ) 0 3 = Except.ok 3 :=
  ⟨by decide, by
    have h := (clamp_spec (5:ℤ) 0 3).2 (by decide)
    have h2 : max (min (5:ℤ) 3) 0 = 3 := by decide
    exact h2 ▸ h.1⟩

lemma toSRGB_of_le {z : ℝ} (hz : z ≤ 0.0031308) : toSRGB z 2.4 = 12.92 * z := by
  simp only [toSRGB, if_pos hz]

lemma toSRGB_of_gt {z : ℝ} (hz : 0.0031308 < z) :
    toSRGB z 2.4 = (1 + 0.055) * z ^ ((1:ℝ) / 2.4) - 0.055 := by
  simp only [toSRGB, if_neg (not_le.mpr hz)]

lemma rpow_inv_gamma_pow_twelve {z : ℝ} (hz : 0 ≤ z) :
    (z ^ ((1:ℝ) / 2.4)) ^ (12:ℕ) = z ^ (5:ℕ) := by
  rw [← Real.rpow_natCast (z ^ ((1:ℝ) / 2.4)) 12, ← Real.rpow_mul hz]
  rw [show (1:ℝ) / 2.4 * ((12:ℕ):ℝ) = ((5:ℕ):ℝ) by push_cast; norm_num]
  exact Real.rpow_natCast z 5

/-- C3: toSRGB is the piecewise standard transfer curve with default gamma
2.4: the linear segment 12.92 * linear at or below the threshold 0.0031308,
and the power curve (1 + 0.055) * linear^(1/2.4) - 0.055 above it. -/
theorem toSRGB_piecewise (l : ℝ) :
    (l ≤ 0.0031308 → toSRGB l 2.4 = 12.92 * l)
    ∧ (0.0031308 < l → toSRGB l 2.4 = (1 + 0.055) * l ^ ((1:ℝ) / 2.4) - 0.055) :=
  ⟨fun hl => toSRGB_of_le hl, fun hl => toSRGB_of_gt hl⟩

/-- Closed witness for C3: the linear branch at 0 and the power branch at
1. -/
theorem toSRGB_piecewise_witness :
    ((0:ℝ) ≤ 0.0031308 ∧ toSRGB 0 2.4 = 12.92 * 0)
    ∧ ((0.0031308:ℝ) < 1
      ∧ toSRGB 1 2.4 = (1 + 0.055) * (1:ℝ) ^ ((1:ℝ) / 2.4) - 0.055) :=
  ⟨⟨by norm_num, (toSRGB_piecewise 0).1 (by norm_num)⟩,
   ⟨by norm_num, (toSRGB_piecewise 1).2 (by norm_num)⟩⟩

/-- C4 counterexample: toSRGB is not non-decreasing on the non-negative
domain. At the threshold itself the linear branch yields
12.92 * 0.0031308 = 0.040449936, while just above the threshold the power
branch yields a smaller value (the two branches do not meet exactly: the
curve jumps down by about 2.9e-8), so monotonicity fails across the
boundary; since SRGB mode applies toSRGB, applyTonemap in SRGB mode is not
non-decreasing either. -/
theorem toSRGB_not_monotone :
    ¬ (toSRGB 0.0031308 2.4 ≤ toSRGB 0.003130801 2.4) := by
  rw [not_le, toSRGB_of_le (le_refl (0.0031308:ℝ)),
    toSRGB_of_gt (by norm_num : (0.0031308:ℝ) < 0.003130801)]
  have h0y : (0:ℝ) ≤ 0.003130801 := by norm_num
  have hc0 : (0:ℝ) ≤ (12.92 * 0.0031308 + 0.055) / 1.055 := by norm_num
  have hkey : (0.003130801:ℝ) ^ ((1:ℝ) / 2.4) <
      (12.92 * 0.0031308 + 0.055) / 1.055 := by
    have hlt : ((0.003130801:ℝ) ^ ((1:ℝ) / 2.4)) ^ (12:ℕ) <
        ((12.92 * 0.0031308 + 0.055) / 1.055) ^ (12:ℕ) := by
      rw [rpow_inv_gamma_pow_twelve h0y]
      norm_num
    exact lt_of_pow_lt_pow_left₀ 12 hc0 hlt
  linarith

/-- C4 (amended): the Gamma tonemap mode is non-decreasing on the
non-negative domain for every positive gamma. The SRGB mode (toSRGB at its
default gamma 2.4) is non-decreasing within each branch of its piecewise
definition, and across the whole non-negative domain it is non-decreasing up
to the additive defect 3e-8 caused by the downward jump of the published
sRGB constants at the threshold 0.0031308 (exact monotonicity fails there,
see the counterexample). -/
theorem tonemap_monotone_amended (gamma x y : ℝ) (hg : 0 < gamma) (hx : 0 ≤ x)
    (hxy : x ≤ y) :
    (y ≤ 0.0031308 → toSRGB x 2.4 ≤ toSRGB y 2.4)
    ∧ (0.0031308 < x → toSRGB x 2.4 ≤ toSRGB y 2.4)
    ∧ toSRGB x 2.4 ≤ toSRGB y 2.4 + 0.00000003
    ∧ (∀ u v, applyTonemapChannel x gamma ETonemap.Gamma = some u →
        applyTonemapChannel y gamma ETonemap.Gamma = some v → u ≤ v)
    ∧ (∀ u v, applyTonemapChannel x gamma ETonemap.SRGB = some u →
        applyTonemapChannel y gamma ETonemap.SRGB = some v →
        u ≤ v + 0.00000003) := by
  have ht0 : (0:ℝ) < 0.0031308 := by norm_num
  have hexp : (0:ℝ) ≤ 1 / 2.4 := by norm_num
  have hlinear : ∀ a b : ℝ, a ≤ b → b ≤ 0.0031308 → a ≤ 0.0031308 →
      toSRGB a 2.4 ≤ toSRGB b 2.4 := by
    intro a b hab hb ha
    rw [toSRGB_of_le ha, toSRGB_of_le hb]
    linarith
  have hpower : ∀ a b : ℝ, a ≤ b → 0.0031308 < a →
      toSRGB a 2.4 ≤ toSRGB b 2.4 := by
    intro a b hab ha
    have hb : (0.0031308:ℝ) < b := lt_of_lt_of_le ha hab
    rw [toSRGB_of_gt ha, toSRGB_of_gt hb]
    have hmono := Real.rpow_le_rpow (le_of_lt (lt_trans ht0 ha)) hab hexp
    linarith
  have hglobal : toSRGB x 2.4 ≤ toSRGB y 2.4 + 0.00000003 := by
    rcases le_or_lt y 0.0031308 with hyt | hyt
    · have := hlinear x y hxy hyt (le_trans hxy hyt)
      linarith
    · rcases le_or_lt x 0.0031308 with hxt | hxt
      · rw [toSRGB_of_le hxt, toSRGB_of_gt hyt]
        have hdt : (0.0904738459 : ℝ) ≤ (0.0031308:ℝ) ^ ((1:ℝ) / 2.4) := by
          have h12 : (0.0904738459:ℝ) ^ (12:ℕ) ≤
              ((0.0031308:ℝ) ^ ((1:ℝ) / 2.4)) ^ (12:ℕ) := by
            rw [rpow_inv_gamma_pow_twelve (le_of_lt ht0)]
            norm_num
          exact le_of_pow_le_pow_left₀ (by norm_num)
            (Real.rpow_nonneg (le_of_lt ht0) _) h12
        have hdy : (0.0904738459 : ℝ) ≤ y ^ ((1:ℝ) / 2.4) :=
          le_trans hdt (Real.rpow_le_rpow (le_of_lt ht0) (le_of_lt hyt) hexp)
        have hnum : 12.92 * (0.0031308:ℝ) ≤
            1.055 * 0.0904738459 - 0.055 + 0.00000003 := by norm_num
        linarith
      · have := hpower x y hxy hxt
        linarith
  refine ⟨?_, ?_, hglobal, ?_, ?_⟩
  · intro hyt
    exact hlinear x y hxy hyt (le_trans hxy hyt)
  · intro hxt
    exact hpower x y hxy hxt
  · intro u v hu hv
    have hu2 : some (x ^ (1 / gamma)) = some u := hu
    have hv2 : some (y ^ (1 / gamma)) = some v := hv
    injection hu2 with hu3
    injection hv2 with hv3
    subst hu3 hv3
    exact Real.rpow_le_rpow hx hxy (le_of_lt (div_pos one_pos hg))
  · intro u v hu hv
    have hu2 : some (toSRGB x 2.4) = some u := hu
    have hv2 : some (toSRGB y 2.4) = some v := hv
    injection hu2 with hu3
    injection hv2 with hv3
    subst hu3 hv3
    exact hglobal

/-- Closed witness for C4 (amended) at gamma 1 on the pair 0 ≤ 1. -/
theorem tonemap_monotone_amended_witness :
    (0:ℝ) < 1 ∧ (0:ℝ) ≤ 0 ∧ (0:ℝ) ≤ 1
    ∧ (((1:ℝ) ≤ 0.0031308 → toSRGB 0 2.4 ≤ toSRGB 1 2.4)
      ∧ ((0.0031308:ℝ) < 0 → toSRGB 0 2.4 ≤ toSRGB 1 2.4)
      ∧ toSRGB 0 2.4 ≤ toSRGB 1 2.4 + 0.00000003
      ∧ (∀ u v, applyTonemapChannel 0 1 ETonemap.Gamma = some u →
          applyTonemapChannel 1 1 ETonemap.Gamma = some v → u ≤ v)
      ∧ (∀ u v, applyTonemapChannel 0 1 ETonemap.SRGB = some u →
          applyTonemapChannel 1 1 ETonemap.SRGB = some v →
          u ≤ v + 0.00000003)) :=
  ⟨one_pos, le_refl 0, zero_le_one,
   tonemap_monotone_amended 1 0 1 one_pos (le_refl 0) zero_le_one⟩

end Tev
